import Mathlib

/-!
Shallow embedding of the ImmerSync beat detector (src/src/main.ts), together
with proofs of the spec's testable properties.

The repository keeps two near-duplicate detector variants side by side in
`main.ts`:

* the kick-impulse detector (`HISTORY_SIZE = 30`, `MIN_KICK_THRESHOLD = 0.15`,
  `THRESHOLD_MULTIPLIER = 1.5`, `MIN_BEAT_INTERVAL = 250 ms`,
  `LOOKAHEAD_MS = 100`), modelled by `detectBeatsStep`;
* the energy/flux detector (`ENERGY_HISTORY_SIZE = 43`, `BASS_THRESHOLD = 0.10`,
  `MIN_BEAT_INTERVAL = 150 ms`, `SPECTRAL_FLUX_WEIGHT = 0.3`,
  `LOOKAHEAD_MS = 100`), modelled by `detectBeatsStep2`.

Magnitude snapshots are sequences of 8-bit values (`List ℕ`, entries ≤ 255
where a claim needs the bound); energies, thresholds and clock values are
exact rationals.  The source computes in IEEE doubles; every constant involved
is an exact small fraction, so the rational model is the exact arithmetic the
code approximates.
-/

namespace ImmerSync

/-- Kick-variant analyser fft size (`this.FFT_SIZE = 2048`). -/
def FFT_SIZE : ℕ := 2048

/-- Kick band lower bound in Hz (`KICK_MIN_HZ = 40`). -/
def KICK_MIN_HZ : ℕ := 40

/-- Kick band upper bound in Hz (`KICK_MAX_HZ = 120`). -/
def KICK_MAX_HZ : ℕ := 120

/-- Bass band lower bound in Hz (`BASS_MIN_HZ = 120`). -/
def BASS_MIN_HZ : ℕ := 120

/-- Bass band upper bound in Hz (`BASS_MAX_HZ = 250`). -/
def BASS_MAX_HZ : ℕ := 250

/-- Configured threshold floor of the kick detector (`MIN_KICK_THRESHOLD = 0.15`). -/
def MIN_KICK_THRESHOLD : ℚ := 15/100

/-- Multiplier applied to the rolling mean (`THRESHOLD_MULTIPLIER = 1.5`). -/
def THRESHOLD_MULTIPLIER : ℚ := 3/2

/-- Refractory interval of the kick detector in ms (`MIN_BEAT_INTERVAL = 250`). -/
def MIN_BEAT_INTERVAL : ℚ := 250

/-- Rolling history capacity of the kick detector (`HISTORY_SIZE = 30`). -/
def HISTORY_SIZE : ℕ := 30

/-- Fixed lookahead in ms (`LOOKAHEAD_MS = 100`, same in both variants). -/
def LOOKAHEAD_MS : ℚ := 100

/-- Flux-variant base threshold offset (`BASS_THRESHOLD = 0.10`). -/
def BASS_THRESHOLD : ℚ := 1/10

/-- Flux-variant rolling history capacity (`ENERGY_HISTORY_SIZE = 43`). -/
def ENERGY_HISTORY_SIZE : ℕ := 43

/-- Flux-variant refractory interval in ms (`MIN_BEAT_INTERVAL = 150`). -/
def MIN_BEAT_INTERVAL2 : ℚ := 150

/-- Flux-variant analyser fft size (`this.FFT_SIZE = 1024`). -/
def FFT_SIZE2 : ℕ := 1024

/-- Flux-variant bass band upper bound in Hz (`BASS_MAX_HZ = 150`). -/
def BASS_MAX_HZ2 : ℕ := 150

/-- Upper Hz bound of the spectral-flux band (`FLUX_MAX_HZ = 200`). -/
def FLUX_MAX_HZ : ℕ := 200

/-- Convex weight combining flux and bass energy (`SPECTRAL_FLUX_WEIGHT = 0.3`). -/
def SPECTRAL_FLUX_WEIGHT : ℚ := 3/10

/-- Models `this.audioContext?.sampleRate || 44100`: a missing or zero (falsy)
sample rate falls back to 44100, so the effective rate is always positive. -/
def effectiveRate (sr : ℕ) : ℕ := if sr = 0 then 44100 else sr

/-- Bin index for a frequency: `Math.floor(hz / binWidth)` with
`binWidth = sampleRate / fftSize`.  Exactly, `⌊hz · fftSize / sampleRate⌋`,
which on naturals is natural division. -/
def binOf (sr fft hz : ℕ) : ℕ := hz * fft / effectiveRate sr

/-- Highest bin actually summed, clamped by the snapshot length
(`Math.min(Math.floor(maxHz / binWidth), data.length - 1)`); for an empty
snapshot this is `-1`, hence the integer codomain. -/
def maxBinOf (sr fft hz : ℕ) (len : ℕ) : ℤ :=
  min ((binOf sr fft hz : ℤ)) ((len : ℤ) - 1)

/-- `BeatDetector.getFrequencyRangeEnergy` (kick variant, main.ts lines
147-164): sum of the snapshot over the resolved bin range, normalized by
`(maxBin - minBin + 1) * 255`; `0` when the range is degenerate
(`minBin >= maxBin`). -/
def getFrequencyRangeEnergy (sr fft : ℕ) (data : List ℕ) (minHz maxHz : ℕ) : ℚ :=
  let minBin : ℕ := binOf sr fft minHz
  let maxBin : ℤ := maxBinOf sr fft maxHz data.length
  if (minBin : ℤ) ≥ maxBin then 0
  else
    let count : ℕ := (maxBin - minBin + 1).toNat
    (((data.drop minBin).take count).sum : ℚ) / ((count : ℚ) * 255)

/-- Guard for absent inputs (`if (!this.analyser || !this.dataArray) return 0`):
with no snapshot the energy is `0`. -/
def getFrequencyRangeEnergyOpt (sr fft : ℕ) (data : Option (List ℕ))
    (minHz maxHz : ℕ) : ℚ :=
  match data with
  | none => 0
  | some d => getFrequencyRangeEnergy sr fft d minHz maxHz

/-- `BeatDetector.calculateBassEnergy` (flux variant): sum of bins
`0..maxBin` normalized by `(maxBin + 1) * 255`, with an early `0` when
`maxBin < 1`. -/
def calculateBassEnergy (sr fft : ℕ) (data : List ℕ) : ℚ :=
  let maxBin : ℤ := maxBinOf sr fft BASS_MAX_HZ2 data.length
  if maxBin < 1 then 0
  else
    let count : ℕ := (maxBin + 1).toNat
    (((data.take count).sum : ℚ)) / ((count : ℚ) * 255)

/-- Number of bins the spectral-flux loop visits: `maxBin + 1` (zero for an
empty snapshot, where `maxBin = -1`). -/
def fluxBinCount (sr fft : ℕ) (data : List ℕ) : ℕ :=
  (maxBinOf sr fft FLUX_MAX_HZ data.length + 1).toNat

/-- The exact divisor of `calculateSpectralFlux`: `(maxBin + 1) * 255`.  The
source has no degenerate-range early return here, so this divisor is used
whenever a previous snapshot exists. -/
def fluxDivisor (sr fft : ℕ) (data : List ℕ) : ℚ :=
  (fluxBinCount sr fft data : ℚ) * 255

/-- One loop iteration of the flux sum: `diff = data[i] - prev[i]; if
(diff > 0) flux += diff`.  Reading past the end of `prev` gives `undefined`,
`NaN` differences fail the `> 0` test, so such bins contribute `0`. -/
def fluxContrib (prev data : List ℕ) (i : ℕ) : ℤ :=
  match prev[i]? with
  | none => 0
  | some pi => max 0 ((data.getD i 0 : ℤ) - (pi : ℤ))

/-- Models `this.prevFreqData.set(frequencyData)`: the source is copied over
the front of the target (for equal lengths the target becomes the source). -/
def typedArraySet (target source : List ℕ) : List ℕ :=
  source ++ target.drop source.length

/-- `BeatDetector.calculateSpectralFlux` (flux variant, main.ts lines
572-600), as a pure function from the previous-snapshot buffer and the
current snapshot to the flux value and the updated buffer.  With no previous
snapshot it returns `0` and seeds the buffer with zeros
(`new Uint8Array(frequencyData.length)`); otherwise it sums the half-wave
rectified bin differences over bins `0..maxBin`, overwrites the buffer with
the current snapshot and normalizes by `(maxBin + 1) * 255`. -/
def calculateSpectralFlux (sr fft : ℕ) (prev : Option (List ℕ))
    (data : List ℕ) : ℚ × Option (List ℕ) :=
  match prev with
  | none => (0, some (List.replicate data.length 0))
  | some p =>
    let count := fluxBinCount sr fft data
    let flux : ℤ := ((List.range count).map (fluxContrib p data)).sum
    ((flux : ℚ) / fluxDivisor sr fft data, some (typedArraySet p data))

/-- Kick-band energy of a snapshot
(`this.getFrequencyRangeEnergy(this.KICK_MIN_HZ, this.KICK_MAX_HZ)`). -/
def kickEnergyOf (sr fft : ℕ) (d : List ℕ) : ℚ :=
  getFrequencyRangeEnergy sr fft d KICK_MIN_HZ KICK_MAX_HZ

/-- Bass-band energy of a snapshot
(`this.getFrequencyRangeEnergy(this.BASS_MIN_HZ, this.BASS_MAX_HZ)`). -/
def bassEnergyOf (sr fft : ℕ) (d : List ℕ) : ℚ :=
  getFrequencyRangeEnergy sr fft d BASS_MIN_HZ BASS_MAX_HZ

/-- Rolling-history update: `push(x)` followed by `if (length > cap) shift()`
(append at the tail, evict the oldest element once over capacity). -/
def pushHistory (cap : ℕ) (hist : List ℚ) (x : ℚ) : List ℚ :=
  let h := hist ++ [x]
  if cap < h.length then h.drop 1 else h

/-- Arithmetic mean of the rolling history
(`history.reduce((a, b) => a + b, 0) / history.length`). -/
def histMean (h : List ℚ) : ℚ := h.sum / h.length

/-- Rolling variance of the flux-variant history
(`reduce((sum, val) => sum + Math.pow(val - avgEnergy, 2), 0) / length`). -/
def histVariance (h : List ℚ) : ℚ :=
  (h.map (fun v => (v - histMean h) ^ 2)).sum / h.length

/-- Adaptive threshold of the kick detector:
`Math.max(MIN_KICK_THRESHOLD, avgImpulse * THRESHOLD_MULTIPLIER)`. -/
def dynamicThreshold (avgImpulse : ℚ) : ℚ :=
  max MIN_KICK_THRESHOLD (avgImpulse * THRESHOLD_MULTIPLIER)

/-- Mutable fields of the kick-variant `BeatDetector` that the per-tick step
touches.  Times are the `performance.now()` clock in milliseconds. -/
structure KickState where
  prevKickEnergy : ℚ
  prevBassEnergy : ℚ
  kickHistory : List ℚ
  lastBeatTime : ℚ
  beatBuffer : List ℚ

/-- Field initializers of the kick-variant class: zero previous energies,
empty history, `lastBeatTime = 0`, empty beat buffer. -/
def initialKickState : KickState :=
  { prevKickEnergy := 0, prevBassEnergy := 0, kickHistory := [],
    lastBeatTime := 0, beatBuffer := [] }

/-- One invocation of the kick-variant `BeatDetector.detectBeats` body
(main.ts lines 93-145) on a fresh snapshot `d` at clock value `now`:
compute band energies, positive frame-to-frame impulses, store the new
previous energies, push the kick impulse onto the rolling history (evicting
the oldest over capacity), and — only once the history has reached
`HISTORY_SIZE` — fire a beat when the impulse exceeds the adaptive threshold,
kick dominates bass by the 1.1 factor, and the refractory interval has
elapsed; on a beat, push `now + LOOKAHEAD_MS` and set `lastBeatTime = now`. -/
def detectBeatsStep (sr fft : ℕ) (s : KickState) (d : List ℕ) (now : ℚ) :
    KickState :=
  let kickEnergy := kickEnergyOf sr fft d
  let bassEnergy := bassEnergyOf sr fft d
  let kickImpulse := max 0 (kickEnergy - s.prevKickEnergy)
  let bassImpulse := max 0 (bassEnergy - s.prevBassEnergy)
  let hist := pushHistory HISTORY_SIZE s.kickHistory kickImpulse
  let s1 : KickState :=
    { s with prevKickEnergy := kickEnergy, prevBassEnergy := bassEnergy,
             kickHistory := hist }
  if hist.length < HISTORY_SIZE then s1
  else if kickImpulse > dynamicThreshold (histMean hist) ∧
      kickImpulse > bassImpulse * (11/10) ∧
      now - s.lastBeatTime > MIN_BEAT_INTERVAL then
    { s1 with lastBeatTime := now,
              beatBuffer := s1.beatBuffer ++ [now + LOOKAHEAD_MS] }
  else s1

/-- Folding the kick-variant per-tick step over a sequence of
(snapshot, clock) ticks. -/
def runDetect (sr fft : ℕ) (s : KickState) : List (List ℕ × ℚ) → KickState
  | [] => s
  | (d, now) :: rest => runDetect sr fft (detectBeatsStep sr fft s d now) rest

/-- Like `runDetect`, but also collects the detection times (the clock value
`now` of every tick on which a beat was enqueued, witnessed by the beat
buffer growing). -/
def runDetectTimes (sr fft : ℕ) (s : KickState) :
    List (List ℕ × ℚ) → KickState × List ℚ
  | [] => (s, [])
  | (d, now) :: rest =>
    let s1 := detectBeatsStep sr fft s d now
    let r := runDetectTimes sr fft s1 rest
    (r.1,
      (if s.beatBuffer.length < s1.beatBuffer.length then [now] else []) ++ r.2)

/-- Mutable fields of the flux-variant `BeatDetector` that the per-tick step
touches. -/
structure FluxState where
  energyHistory : List ℚ
  lastBeatTime : ℚ
  prevFreqData : Option (List ℕ)
  beatBuffer : List ℚ

/-- Field initializers of the flux-variant class: empty history,
`lastBeatTime = 0`, `prevFreqData = null`, empty beat buffer. -/
def initialFluxState : FluxState :=
  { energyHistory := [], lastBeatTime := 0, prevFreqData := none,
    beatBuffer := [] }

/-- One invocation of the flux-variant `BeatDetector.detectBeats` body
(main.ts lines 517-548): combine spectral flux and bass energy by the convex
weight, push onto the rolling history (evicting the oldest over capacity),
compute mean and variance of the updated history, and fire a beat when the
combined scalar exceeds `avg * (1 + adaptiveThreshold)` and the refractory
interval has elapsed.  Note there is no warm-up gate: the decision is made
at every tick, over however much history exists. -/
def detectBeatsStep2 (sr fft : ℕ) (s : FluxState) (d : List ℕ) (now : ℚ) :
    FluxState :=
  let fp := calculateSpectralFlux sr fft s.prevFreqData d
  let combined := SPECTRAL_FLUX_WEIGHT * fp.1 +
    (1 - SPECTRAL_FLUX_WEIGHT) * calculateBassEnergy sr fft d
  let hist := pushHistory ENERGY_HISTORY_SIZE s.energyHistory combined
  let adaptiveThreshold : ℚ :=
    if histVariance hist > 5/10000 then BASS_THRESHOLD * (9/10)
    else BASS_THRESHOLD
  let s1 : FluxState := { s with energyHistory := hist, prevFreqData := fp.2 }
  if combined > histMean hist * (1 + adaptiveThreshold) ∧
      now - s.lastBeatTime > MIN_BEAT_INTERVAL2 then
    { s1 with lastBeatTime := now,
              beatBuffer := s1.beatBuffer ++ [now + LOOKAHEAD_MS] }
  else s1

/-- Folding the flux-variant per-tick step over a sequence of ticks. -/
def runDetect2 (sr fft : ℕ) (s : FluxState) : List (List ℕ × ℚ) → FluxState
  | [] => s
  | (d, now) :: rest => runDetect2 sr fft (detectBeatsStep2 sr fft s d now) rest

/-- Like `runDetect2`, but also collects the detection times of enqueued
beats. -/
def runDetectTimes2 (sr fft : ℕ) (s : FluxState) :
    List (List ℕ × ℚ) → FluxState × List ℚ
  | [] => (s, [])
  | (d, now) :: rest =>
    let s1 := detectBeatsStep2 sr fft s d now
    let r := runDetectTimes2 sr fft s1 rest
    (r.1,
      (if s.beatBuffer.length < s1.beatBuffer.length then [now] else []) ++ r.2)

/-- The `processBeats` drain loop body (main.ts lines 166-173):
`while (beatBuffer.length > 0 && beatBuffer[0] <= now) { shift(); callback(); }`.
Returns the remaining buffer and the timestamps popped (one callback
invocation per popped entry, in order). -/
def drainBeats : List ℚ → ℚ → List ℚ × List ℚ
  | [], _ => ([], [])
  | t :: rest, now =>
    if t ≤ now then
      let r := drainBeats rest now
      (r.1, t :: r.2)
    else (t :: rest, [])

/-- A scheduler tick given to the engine: either a detect step on a fresh
snapshot, or a drain step; each carries the monotonic clock value `now` that
`performance.now()` returns during it. -/
inductive TickOp where
  | detect (d : List ℕ) (now : ℚ)
  | drain (now : ℚ)

/-- Clock value observed by an op. -/
def opNow : TickOp → ℚ
  | .detect _ now => now
  | .drain now => now

/-- Detector state together with the sequence of beat events delivered to the
callback so far (identified by their buffer timestamps, in delivery order). -/
structure LoopState where
  det : KickState
  delivered : List ℚ

/-- Apply one scheduler op.  The second component is the list of timestamps
enqueued onto the beat buffer by this op (empty or a singleton for a detect
op, always empty for a drain op). -/
def applyOp (sr fft : ℕ) (s : LoopState) : TickOp → LoopState × List ℚ
  | .detect d now =>
    let det1 := detectBeatsStep sr fft s.det d now
    ({ det := det1, delivered := s.delivered },
      det1.beatBuffer.drop s.det.beatBuffer.length)
  | .drain now =>
    let r := drainBeats s.det.beatBuffer now
    ({ det := { s.det with beatBuffer := r.1 },
       delivered := s.delivered ++ r.2 }, [])

/-- Run a sequence of scheduler ops, collecting the full enqueue order. -/
def runOps (sr fft : ℕ) (s : LoopState) : List TickOp → LoopState × List ℚ
  | [] => (s, [])
  | op :: rest =>
    let r := applyOp sr fft s op
    let rr := runOps sr fft r.1 rest
    (rr.1, r.2 ++ rr.2)

/-- Clock value after a sequence of ops (the last op's `now`, or the starting
value for the empty sequence). -/
def lastNow (t : ℚ) (ops : List TickOp) : ℚ :=
  ops.foldl (fun _ op => opNow op) t

/-- Invariant tying the beat buffer to the clock: the buffer is sorted and
every queued timestamp is at most `t + LOOKAHEAD_MS` (it was pushed as
`now + LOOKAHEAD_MS` at some earlier clock value `now ≤ t`). -/
def BufBound (buf : List ℚ) (t : ℚ) : Prop :=
  buf.Sorted (· ≤ ·) ∧ ∀ x ∈ buf, x ≤ t + LOOKAHEAD_MS

/-- Session-level state for the stop/cleanup claims: the detector state, the
`this.rafId` slot (whether a detect-loop animation frame is currently
scheduled and cancellable), and the events delivered so far.  The
`processBeats` drain loop never stores its `requestAnimationFrame` id
(main.ts line 172 discards it), so no field can make the drain loop
cancellable — a drain tick remains possible in every session state. -/
structure SessionState where
  det : KickState
  rafId : Bool
  delivered : List ℚ

/-- `BeatDetector.stop` (main.ts lines 86-91):
`cancelAnimationFrame(this.rafId); this.rafId = null`.  Only the detect
loop's pending frame is cancelled; nothing else changes. -/
def stopDetector (s : SessionState) : SessionState := { s with rafId := false }

/-- One `processBeats` invocation at clock `now` at the session level:
drain every queued event whose timestamp has arrived and deliver it to the
callback.  It runs regardless of `rafId`, because the drain loop reschedules
itself with an unstored frame id that `stop` cannot cancel. -/
def processBeatsTick (s : SessionState) (now : ℚ) : SessionState :=
  { s with
    det := { s.det with beatBuffer := (drainBeats s.det.beatBuffer now).1 },
    delivered := s.delivered ++ (drainBeats s.det.beatBuffer now).2 }

/-- Module-level plugin state (main.ts lines 305-307): the `isEnabled` flag,
the detector, and whether the detect loop is scheduled. -/
structure PluginState where
  isEnabled : Bool
  detector : KickState
  rafScheduled : Bool

/-- `provide.toggleBeatSync` (main.ts lines 386-392):
`isEnabled = !isEnabled; return isEnabled` — it flips the flag and returns
the new value, touching nothing else. -/
def toggleBeatSync (g : PluginState) : PluginState × Bool :=
  ({ g with isEnabled := !g.isEnabled }, !g.isEnabled)

/-- The beat callback registered in `setup` (main.ts lines 326-330):
`if (isEnabled && immersiveEffects) immersiveEffects.flash()`.  Returns
whether the visual effect fires. -/
def beatCallbackFlashes (g : PluginState) (effectsPresent : Bool) : Bool :=
  g.isEnabled && effectsPresent

/-- A detect tick of the running plugin: the rAF loop invokes
`detectBeats` without consulting `isEnabled`. -/
def pluginDetectTick (sr fft : ℕ) (g : PluginState) (d : List ℕ) (now : ℚ) :
    PluginState :=
  { g with detector := detectBeatsStep sr fft g.detector d now }

theorem effectiveRate_pos (sr : ℕ) : 0 < effectiveRate sr := by
  unfold effectiveRate
  split <;> omega

theorem forall₂_sum_le {a b : List ℕ} (h : List.Forall₂ (· ≤ ·) a b) :
    a.sum ≤ b.sum := by
  induction h with
  | nil => simp
  | cons h1 _ ih => simpa using Nat.add_le_add h1 ih

theorem getD_le_255 :
    ∀ (data : List ℕ), (∀ v ∈ data, v ≤ 255) → ∀ i, data.getD i 0 ≤ 255 := by
  intro data h i
  induction data generalizing i with
  | nil => simp [List.getD]
  | cons x xs ih =>
    cases i with
    | zero => simpa using h x (by simp)
    | succ j =>
      simpa [List.getD_cons_succ] using
        ih (fun v hv => h v (by simp [hv])) j

theorem fluxContrib_nonneg (p data : List ℕ) (i : ℕ) :
    0 ≤ fluxContrib p data i := by
  unfold fluxContrib
  cases p[i]? with
  | none => exact le_refl 0
  | some pi => exact le_max_left 0 _

theorem fluxContrib_le (p : List ℕ) {data : List ℕ}
    (h : ∀ v ∈ data, v ≤ 255) (i : ℕ) : fluxContrib p data i ≤ 255 := by
  unfold fluxContrib
  cases p[i]? with
  | none => norm_num
  | some pi =>
    have hd : (data.getD i 0 : ℤ) ≤ 255 := by
      exact_mod_cast getD_le_255 data h i
    exact max_le (by norm_num) (by omega)

theorem getFrequencyRangeEnergy_nonneg (sr fft : ℕ) (data : List ℕ)
    (minHz maxHz : ℕ) : 0 ≤ getFrequencyRangeEnergy sr fft data minHz maxHz := by
  simp only [getFrequencyRangeEnergy]
  split
  · exact le_refl 0
  · positivity

theorem getFrequencyRangeEnergy_le_one (sr fft : ℕ) {data : List ℕ}
    (h : ∀ v ∈ data, v ≤ 255) (minHz maxHz : ℕ) :
    getFrequencyRangeEnergy sr fft data minHz maxHz ≤ 1 := by
  simp only [getFrequencyRangeEnergy]
  split
  · exact zero_le_one
  · rename_i hnd
    set minBin := binOf sr fft minHz with hmin
    set maxBin := maxBinOf sr fft maxHz data.length with hmax
    set count := (maxBin - (minBin : ℤ) + 1).toNat with hcount
    have hcpos : 0 < count := by omega
    have hslice : ∀ v ∈ (data.drop minBin).take count, v ≤ 255 := fun v hv =>
      h v (List.drop_subset _ _ (List.take_subset _ _ hv))
    have hsum : ((data.drop minBin).take count).sum ≤ count * 255 := by
      calc ((data.drop minBin).take count).sum
          ≤ ((data.drop minBin).take count).length * 255 := by
            simpa [smul_eq_mul] using
              List.sum_le_card_nsmul ((data.drop minBin).take count) 255 hslice
        _ ≤ count * 255 :=
            Nat.mul_le_mul_right 255 (by simp)
    rw [div_le_one (by positivity)]
    calc ((((data.drop minBin).take count).sum : ℕ) : ℚ)
        ≤ ((count * 255 : ℕ) : ℚ) := by exact_mod_cast hsum
      _ = (count : ℚ) * 255 := by push_cast; ring

theorem spectralFlux_nonneg (sr fft : ℕ) (p data : List ℕ) :
    0 ≤ (calculateSpectralFlux sr fft (some p) data).1 := by
  unfold calculateSpectralFlux
  have hsum : (0 : ℤ) ≤ ((List.range (fluxBinCount sr fft data)).map
      (fluxContrib p data)).sum := by
    apply List.sum_nonneg
    intro x hx
    obtain ⟨i, _, rfl⟩ := List.mem_map.mp hx
    exact fluxContrib_nonneg p data i
  have hden : (0 : ℚ) ≤ fluxDivisor sr fft data := by
    unfold fluxDivisor; positivity
  exact div_nonneg (by exact_mod_cast hsum) hden

theorem spectralFlux_le_one (sr fft : ℕ) (p : List ℕ) {data : List ℕ}
    (h : ∀ v ∈ data, v ≤ 255) :
    (calculateSpectralFlux sr fft (some p) data).1 ≤ 1 := by
  unfold calculateSpectralFlux
  rcases Nat.eq_zero_or_pos (fluxBinCount sr fft data) with hc | hc
  · simp [hc]
  · have hsum : ((List.range (fluxBinCount sr fft data)).map
        (fluxContrib p data)).sum ≤ (fluxBinCount sr fft data : ℤ) * 255 := by
      calc ((List.range (fluxBinCount sr fft data)).map (fluxContrib p data)).sum
          ≤ ((List.range (fluxBinCount sr fft data)).map
              (fluxContrib p data)).length • (255 : ℤ) :=
            List.sum_le_card_nsmul _ 255 (by
              intro x hx
              obtain ⟨i, _, rfl⟩ := List.mem_map.mp hx
              exact fluxContrib_le p h i)
        _ = (fluxBinCount sr fft data : ℤ) * 255 := by
            simp [nsmul_eq_mul]
    have hden : (0 : ℚ) < fluxDivisor sr fft data := by
      unfold fluxDivisor
      have : (0 : ℚ) < (fluxBinCount sr fft data : ℚ) := by exact_mod_cast hc
      positivity
    rw [div_le_one hden]
    unfold fluxDivisor
    calc ((((List.range (fluxBinCount sr fft data)).map
          (fluxContrib p data)).sum : ℤ) : ℚ)
        ≤ (((fluxBinCount sr fft data : ℤ) * 255 : ℤ) : ℚ) := by
          exact_mod_cast hsum
      _ = (fluxBinCount sr fft data : ℚ) * 255 := by push_cast; ring

theorem fluxDivisor_pos_of_ne_nil (sr fft : ℕ) {data : List ℕ}
    (h : data ≠ []) : 0 < fluxDivisor sr fft data := by
  have hlen : 0 < data.length := List.length_pos.mpr h
  have hcount : 0 < fluxBinCount sr fft data := by
    unfold fluxBinCount maxBinOf
    have h1 : (0 : ℤ) ≤ (binOf sr fft FLUX_MAX_HZ : ℤ) := Int.ofNat_nonneg _
    omega
  unfold fluxDivisor
  have : (0 : ℚ) < (fluxBinCount sr fft data : ℚ) := by exact_mod_cast hcount
  positivity

/-- C8 (amended): for every 8-bit snapshot and band, `bandEnergy` is in
`[0,1]`, a degenerate resolved bin range (`minBin ≥ maxBin`) or an absent
snapshot yields exactly `0` via early return, and `spectralFlux` is in
`[0,1]`; the flux divisor `(maxBin + 1) * 255` is positive for every
NONEMPTY snapshot.  (As stated the claim fails: `calculateSpectralFlux` has
no degenerate-range early return, and on the empty snapshot its divisor is
zero, see the counterexample.) -/
theorem c8_feature_range_division_safety :
    (∀ sr fft : ℕ, ∀ data : List ℕ, ∀ minHz maxHz : ℕ,
        (∀ v ∈ data, v ≤ 255) →
        0 ≤ getFrequencyRangeEnergy sr fft data minHz maxHz ∧
          getFrequencyRangeEnergy sr fft data minHz maxHz ≤ 1) ∧
    (∀ sr fft : ℕ, ∀ data : List ℕ, ∀ minHz maxHz : ℕ,
        maxBinOf sr fft maxHz data.length ≤ (binOf sr fft minHz : ℤ) →
        getFrequencyRangeEnergy sr fft data minHz maxHz = 0) ∧
    (∀ sr fft minHz maxHz : ℕ,
        getFrequencyRangeEnergyOpt sr fft none minHz maxHz = 0) ∧
    (∀ sr fft : ℕ, ∀ p data : List ℕ, (∀ v ∈ data, v ≤ 255) →
        0 ≤ (calculateSpectralFlux sr fft (some p) data).1 ∧
          (calculateSpectralFlux sr fft (some p) data).1 ≤ 1) ∧
    (∀ sr fft : ℕ, ∀ data : List ℕ, data ≠ [] →
        0 < fluxDivisor sr fft data) := by
  refine ⟨fun sr fft data minHz maxHz h => ⟨getFrequencyRangeEnergy_nonneg _ _ _ _ _,
      getFrequencyRangeEnergy_le_one _ _ h _ _⟩,
    fun sr fft data minHz maxHz hdeg => ?_,
    fun sr fft minHz maxHz => rfl,
    fun sr fft p data h => ⟨spectralFlux_nonneg _ _ _ _,
      spectralFlux_le_one _ _ _ h⟩,
    fun sr fft data h => fluxDivisor_pos_of_ne_nil _ _ h⟩
  unfold getFrequencyRangeEnergy
  rw [if_pos]
  exact hdeg

/-- C8 witness: concrete instantiation of every hypothesis of
`c8_feature_range_division_safety`. -/
theorem c8_feature_range_division_safety_witness :
    0 ≤ getFrequencyRangeEnergy 44100 2048 [10, 20, 30, 40, 50, 60] 40 120 ∧
      getFrequencyRangeEnergy 44100 2048 [10, 20, 30, 40, 50, 60] 40 120 ≤ 1 ∧
      getFrequencyRangeEnergy 44100 2048 [10, 20, 30, 40, 50, 60] 120 120 = 0 ∧
      0 < fluxDivisor 44100 1024 [10, 20, 30, 40, 50, 60] := by
  have h8 : ∀ v ∈ [10, 20, 30, 40, 50, 60], v ≤ 255 := by decide
  obtain ⟨h1, h2, _, _, h5⟩ := c8_feature_range_division_safety
  refine ⟨(h1 44100 2048 _ 40 120 h8).1, (h1 44100 2048 _ 40 120 h8).2,
    h2 44100 2048 _ 120 120 (by decide), h5 44100 1024 _ (by decide)⟩

/-- C8 counterexample: on the empty snapshot the spectral-flux divisor
`(maxBin + 1) * 255` is exactly zero, and the flux computation (which has no
degenerate-range early return — the only early return is for a missing
previous snapshot) still performs the division by it, so "no division by
zero ever occurs in feature computation" is false as stated. -/
theorem c8_division_by_zero_counterexample :
    fluxDivisor 44100 1024 [] = 0 ∧
      (calculateSpectralFlux 44100 1024 (some []) []).1 =
        0 / fluxDivisor 44100 1024 [] := by
  have h : fluxBinCount 44100 1024 [] = 0 := by decide
  constructor
  · simp [fluxDivisor, h]
  · unfold calculateSpectralFlux
    simp [h]

/-- C9: band-energy monotonicity — if every bin of snapshot `B` dominates
the corresponding bin of snapshot `A` (in particular the lengths agree),
then the band energy of `B` dominates that of `A`, for every band. -/
theorem c9_band_energy_monotone (sr fft minHz maxHz : ℕ) {A B : List ℕ}
    (h : List.Forall₂ (· ≤ ·) A B) :
    getFrequencyRangeEnergy sr fft A minHz maxHz ≤
      getFrequencyRangeEnergy sr fft B minHz maxHz := by
  have hlen : A.length = B.length := h.length_eq
  simp only [getFrequencyRangeEnergy, hlen]
  split
  · exact le_refl 0
  · rename_i hnd
    set minBin := binOf sr fft minHz with hmin
    set maxBin := maxBinOf sr fft maxHz B.length with hmax
    set count := (maxBin - (minBin : ℤ) + 1).toNat with hcount
    have hsum : ((A.drop minBin).take count).sum ≤
        ((B.drop minBin).take count).sum :=
      forall₂_sum_le (List.forall₂_take count (List.forall₂_drop minBin h))
    gcongr


/-- C9 witness: the monotonicity theorem applied at two concrete snapshots. -/
theorem c9_band_energy_monotone_witness :
    getFrequencyRangeEnergy 44100 2048 [0, 10, 20, 30, 40, 50] 40 120 ≤
      getFrequencyRangeEnergy 44100 2048 [5, 15, 25, 35, 45, 55] 40 120 :=
  c9_band_energy_monotone 44100 2048 40 120 (by
    refine .cons (by norm_num) (.cons (by norm_num) (.cons (by norm_num)
      (.cons (by norm_num) (.cons (by norm_num) (.cons (by norm_num) .nil))))))

theorem pushHistory_of_lt {hist : List ℚ} {cap : ℕ} (x : ℚ)
    (h : hist.length < cap) : pushHistory cap hist x = hist ++ [x] := by
  simp only [pushHistory]
  rw [if_neg (by simp only [List.length_append, List.length_cons,
    List.length_nil]; omega)]

theorem detectBeatsStep_cases (sr fft : ℕ) (s : KickState) (d : List ℕ)
    (now : ℚ) :
    ((detectBeatsStep sr fft s d now).beatBuffer = s.beatBuffer ∧
      (detectBeatsStep sr fft s d now).lastBeatTime = s.lastBeatTime) ∨
    ((detectBeatsStep sr fft s d now).beatBuffer =
        s.beatBuffer ++ [now + LOOKAHEAD_MS] ∧
      (detectBeatsStep sr fft s d now).lastBeatTime = now ∧
      MIN_BEAT_INTERVAL < now - s.lastBeatTime) := by
  simp only [detectBeatsStep]
  split
  · exact Or.inl ⟨rfl, rfl⟩
  · split
    · rename_i hfire
      exact Or.inr ⟨rfl, rfl, hfire.2.2⟩
    · exact Or.inl ⟨rfl, rfl⟩

theorem detectBeatsStep_warmup (sr fft : ℕ) (s : KickState) (d : List ℕ)
    (now : ℚ) (h : s.kickHistory.length + 1 < HISTORY_SIZE) :
    (detectBeatsStep sr fft s d now).beatBuffer = s.beatBuffer ∧
      (detectBeatsStep sr fft s d now).kickHistory.length =
        s.kickHistory.length + 1 := by
  have hlt : s.kickHistory.length < HISTORY_SIZE := Nat.lt_of_succ_lt h
  simp only [detectBeatsStep]
  rw [pushHistory_of_lt _ hlt]
  rw [if_pos (by simpa using h)]
  exact ⟨rfl, by simp⟩

theorem runDetect_warmup (sr fft : ℕ) :
    ∀ (ticks : List (List ℕ × ℚ)) (s : KickState),
      s.kickHistory.length + ticks.length < HISTORY_SIZE →
      (runDetect sr fft s ticks).beatBuffer = s.beatBuffer := by
  intro ticks
  induction ticks with
  | nil => intro s _; rfl
  | cons t rest ih =>
    intro s h
    obtain ⟨d, now⟩ := t
    simp only [List.length_cons] at h
    have hw := detectBeatsStep_warmup sr fft s d now (by omega)
    simp only [runDetect]
    rw [ih (detectBeatsStep sr fft s d now) (by rw [hw.2]; omega), hw.1]

/-- C1 (amended): warm-up suppression holds for the kick-impulse detector —
starting a fresh session (empty history), no input sequence of fewer than
`HISTORY_SIZE` ticks can enqueue any beat, regardless of input magnitudes:
while the history is below capacity the per-tick step appends to history and
returns without a decision.  (As stated over both variants the claim fails:
the flux-variant detector has no warm-up gate, see the counterexample.) -/
theorem c1_warmup_suppression (sr fft : ℕ) (ticks : List (List ℕ × ℚ))
    (h : ticks.length < HISTORY_SIZE) :
    (runDetect sr fft initialKickState ticks).beatBuffer = [] := by
  have h0 : initialKickState.kickHistory.length + ticks.length < HISTORY_SIZE := by
    simpa [initialKickState] using h
  simpa [initialKickState] using runDetect_warmup sr fft ticks initialKickState h0

/-- C1 witness: a concrete two-tick run (with a full-scale snapshot) from a
fresh session enqueues nothing. -/
theorem c1_warmup_suppression_witness :
    (runDetect 44100 2048 initialKickState
      [([255, 255, 255], 16), ([255, 255, 255], 32)]).beatBuffer = [] :=
  c1_warmup_suppression 44100 2048 _ (by decide)

theorem fluxStep_zeros_eval : detectBeatsStep2 44100 1024 initialFluxState
    [0, 0, 0, 0, 0, 0, 0, 0] 1000 =
    ⟨[0], 0, some [0, 0, 0, 0, 0, 0, 0, 0], []⟩ := by
  have hb : calculateBassEnergy 44100 1024 [0, 0, 0, 0, 0, 0, 0, 0] = 0 := by
    have h1 : (List.take (Int.toNat 4) [0, 0, 0, 0, 0, 0, 0, 0]).sum = 0 := by
      decide
    norm_num [calculateBassEnergy, maxBinOf, binOf, effectiveRate,
      BASS_MAX_HZ2, h1]
  have hf : calculateSpectralFlux 44100 1024 none [0, 0, 0, 0, 0, 0, 0, 0] =
      (0, some [0, 0, 0, 0, 0, 0, 0, 0]) := by
    simp [calculateSpectralFlux, List.replicate]
  norm_num [detectBeatsStep2, initialFluxState, hb, hf, pushHistory, histMean,
    histVariance, ENERGY_HISTORY_SIZE, BASS_THRESHOLD, SPECTRAL_FLUX_WEIGHT,
    MIN_BEAT_INTERVAL2]

theorem fluxStep_spike_eval : detectBeatsStep2 44100 1024
    ⟨[0], 0, some [0, 0, 0, 0, 0, 0, 0, 0], []⟩
    [255, 255, 255, 255, 255, 0, 0, 0] 2000 =
    ⟨[0, 1], 2000, some [255, 255, 255, 255, 255, 0, 0, 0], [2100]⟩ := by
  have hb : calculateBassEnergy 44100 1024 [255, 255, 255, 255, 255, 0, 0, 0]
      = 1 := by
    have h1 : (List.take (Int.toNat 4) [255, 255, 255, 255, 255, 0, 0, 0]).sum
        = 1020 := by decide
    norm_num [calculateBassEnergy, maxBinOf, binOf, effectiveRate,
      BASS_MAX_HZ2, h1, show Int.toNat 4 = 4 from rfl]
  have hf : calculateSpectralFlux 44100 1024 (some [0, 0, 0, 0, 0, 0, 0, 0])
      [255, 255, 255, 255, 255, 0, 0, 0] =
      (1, some [255, 255, 255, 255, 255, 0, 0, 0]) := by
    simp only [calculateSpectralFlux]
    rw [show fluxBinCount 44100 1024 [255, 255, 255, 255, 255, 0, 0, 0] = 5
      from by decide]
    rw [show ((List.range 5).map (fluxContrib [0, 0, 0, 0, 0, 0, 0, 0]
      [255, 255, 255, 255, 255, 0, 0, 0])).sum = 1275 from by decide]
    rw [show typedArraySet [0, 0, 0, 0, 0, 0, 0, 0]
      [255, 255, 255, 255, 255, 0, 0, 0] = [255, 255, 255, 255, 255, 0, 0, 0]
      from by decide]
    norm_num [fluxDivisor, fluxBinCount, maxBinOf, binOf, effectiveRate,
      FLUX_MAX_HZ, show Int.toNat 5 = 5 from rfl]
  norm_num [detectBeatsStep2, hb, hf, pushHistory, histMean,
    histVariance, ENERGY_HISTORY_SIZE, BASS_THRESHOLD, SPECTRAL_FLUX_WEIGHT,
    MIN_BEAT_INTERVAL2, LOOKAHEAD_MS, List.sum_cons]

/-- C1 counterexample: the flux-variant detector (history capacity 43)
enqueues a beat on its second tick, so "no beat event is ever enqueued
before at least N detect ticks have been processed" is false as stated for
that variant: two ticks of a fresh session (silence, then a full-scale
percussive attack) leave a beat in the buffer. -/
theorem c1_warmup_counterexample :
    (runDetect2 44100 1024 initialFluxState
      [([0, 0, 0, 0, 0, 0, 0, 0], 1000),
       ([255, 255, 255, 255, 255, 0, 0, 0], 2000)]).beatBuffer = [2100] ∧
    ([([0, 0, 0, 0, 0, 0, 0, 0], (1000 : ℚ)),
      ([255, 255, 255, 255, 255, 0, 0, 0], 2000)] :
        List (List ℕ × ℚ)).length < ENERGY_HISTORY_SIZE := by
  constructor
  · simp only [runDetect2, fluxStep_zeros_eval, fluxStep_spike_eval]
  · decide

/-- C2 (amended): in the kick detector the adaptive threshold is
`max(MIN_KICK_THRESHOLD, mean × multiplier)`, which never falls below the
configured floor, and a tick whose kick impulse is at most the floor never
enqueues a beat — for every history, near-zero or not.  (As stated over both
variants the claim fails: the flux variant's threshold is purely relative
with no floor, see the counterexample.) -/
theorem c2_threshold_floor_dominance :
    (∀ avg : ℚ, MIN_KICK_THRESHOLD ≤ dynamicThreshold avg) ∧
    (∀ sr fft : ℕ, ∀ s : KickState, ∀ d : List ℕ, ∀ now : ℚ,
        max 0 (kickEnergyOf sr fft d - s.prevKickEnergy) ≤ MIN_KICK_THRESHOLD →
        (detectBeatsStep sr fft s d now).beatBuffer = s.beatBuffer) := by
  refine ⟨fun avg => le_max_left _ _, fun sr fft s d now h => ?_⟩
  simp only [detectBeatsStep]
  split
  · rfl
  · split
    · rename_i hfire
      exact absurd hfire.1 (not_lt.mpr (h.trans (le_max_left _ _)))
    · rfl

/-- C2 witness: a silent tick (empty snapshot, zero impulse, below the 0.15
floor) does not change the beat buffer of a fresh kick detector. -/
theorem c2_threshold_floor_dominance_witness :
    (detectBeatsStep 44100 2048 initialKickState [] 7).beatBuffer =
      initialKickState.beatBuffer := by
  have he : kickEnergyOf 44100 2048 [] = 0 := by
    norm_num [kickEnergyOf, getFrequencyRangeEnergy, maxBinOf, binOf,
      effectiveRate, KICK_MIN_HZ, KICK_MAX_HZ]
  exact c2_threshold_floor_dominance.2 44100 2048 initialKickState [] 7
    (by norm_num [he, initialKickState, MIN_KICK_THRESHOLD])

/-- C2 counterexample: a flux-variant detector state whose rolling history
is entirely zero, hit by a single tick whose combined scalar is `47/1000` —
nonzero and below the configured `BASS_THRESHOLD = 0.10` — enqueues a beat:
near-silence does trigger an event, because the flux variant's threshold
`avg * (1 + offset)` has no floor. -/
theorem c2_floor_dominance_counterexample :
    SPECTRAL_FLUX_WEIGHT * (calculateSpectralFlux 44100 1024
        (some [0, 0, 0, 0, 0, 0, 0, 0]) [51, 0, 0, 0, 0, 0, 0, 0]).1 +
      (1 - SPECTRAL_FLUX_WEIGHT) *
        calculateBassEnergy 44100 1024 [51, 0, 0, 0, 0, 0, 0, 0] = 47/1000 ∧
    (0 : ℚ) < 47/1000 ∧ (47 : ℚ)/1000 < BASS_THRESHOLD ∧
    (detectBeatsStep2 44100 1024 ⟨[0, 0], 0, some [0, 0, 0, 0, 0, 0, 0, 0], []⟩
      [51, 0, 0, 0, 0, 0, 0, 0] 1000).beatBuffer = [1100] := by
  have hb : calculateBassEnergy 44100 1024 [51, 0, 0, 0, 0, 0, 0, 0] = 1/20 := by
    have h1 : (List.take (Int.toNat 4) [51, 0, 0, 0, 0, 0, 0, 0]).sum = 51 := by
      decide
    norm_num [calculateBassEnergy, maxBinOf, binOf, effectiveRate,
      BASS_MAX_HZ2, h1, show Int.toNat 4 = 4 from rfl]
  have hf : calculateSpectralFlux 44100 1024 (some [0, 0, 0, 0, 0, 0, 0, 0])
      [51, 0, 0, 0, 0, 0, 0, 0] = (1/25, some [51, 0, 0, 0, 0, 0, 0, 0]) := by
    simp only [calculateSpectralFlux]
    rw [show fluxBinCount 44100 1024 [51, 0, 0, 0, 0, 0, 0, 0] = 5
      from by decide]
    rw [show ((List.range 5).map (fluxContrib [0, 0, 0, 0, 0, 0, 0, 0]
      [51, 0, 0, 0, 0, 0, 0, 0])).sum = 51 from by decide]
    rw [show typedArraySet [0, 0, 0, 0, 0, 0, 0, 0] [51, 0, 0, 0, 0, 0, 0, 0] =
      [51, 0, 0, 0, 0, 0, 0, 0] from by decide]
    norm_num [fluxDivisor, fluxBinCount, maxBinOf, binOf, effectiveRate,
      FLUX_MAX_HZ, show Int.toNat 5 = 5 from rfl]
  refine ⟨by norm_num [hb, hf, SPECTRAL_FLUX_WEIGHT], by norm_num,
    by norm_num [BASS_THRESHOLD], ?_⟩
  norm_num [detectBeatsStep2, hb, hf, pushHistory, histMean,
    histVariance, ENERGY_HISTORY_SIZE, BASS_THRESHOLD, SPECTRAL_FLUX_WEIGHT,
    MIN_BEAT_INTERVAL2, LOOKAHEAD_MS, List.sum_cons]

/-- C10: `toggleBeatSync` flips only the `isEnabled` flag (and returns the
new value): the detector state (history, previous energies, beat buffer,
last beat time) and the run state are untouched, a subsequent detect tick
processes and enqueues exactly as before, and after toggling off only the
effect delivery inside the beat callback is suppressed. -/
theorem c10_toggle_frame_effect (g : PluginState) :
    (toggleBeatSync g).1.detector = g.detector ∧
    (toggleBeatSync g).1.rafScheduled = g.rafScheduled ∧
    (toggleBeatSync g).1.isEnabled = !g.isEnabled ∧
    (toggleBeatSync g).2 = !g.isEnabled ∧
    (∀ sr fft : ℕ, ∀ d : List ℕ, ∀ now : ℚ,
        (pluginDetectTick sr fft (toggleBeatSync g).1 d now).detector =
          detectBeatsStep sr fft g.detector d now) ∧
    (g.isEnabled = true →
        ∀ present : Bool,
          beatCallbackFlashes (toggleBeatSync g).1 present = false) := by
  refine ⟨rfl, rfl, rfl, rfl, fun sr fft d now => rfl, fun h present => ?_⟩
  simp [beatCallbackFlashes, toggleBeatSync, h]

/-- C10 witness: toggling off a concrete enabled plugin state leaves the
detector untouched and suppresses the flash. -/
theorem c10_toggle_frame_effect_witness :
    (toggleBeatSync ⟨true, initialKickState, true⟩).1.detector =
        initialKickState ∧
      beatCallbackFlashes (toggleBeatSync ⟨true, initialKickState, true⟩).1
        true = false := by
  obtain ⟨h1, _, _, _, _, h6⟩ :=
    c10_toggle_frame_effect ⟨true, initialKickState, true⟩
  exact ⟨h1, h6 rfl true⟩

/-- C3: evaluation of the code at the failing input.  A session holds one
queued beat event (timestamp 500) when `stop` is invoked at time 400-600;
`stop` only clears `this.rafId` (the detect loop's frame), while the
`processBeats` drain loop — whose `requestAnimationFrame` id is never stored
(main.ts line 172) and therefore can never be cancelled — keeps running and
DELIVERS the queued event to the beat callback once `now = 600 ≥ 500`.  The
spec requires queued events to be discarded at stop, never flushed late; the
code flushes them late. -/
theorem c3_stop_flushes_late :
    (stopDetector ⟨⟨0, 0, [], 400, [500]⟩, true, []⟩).rafId = false ∧
    (processBeatsTick (stopDetector ⟨⟨0, 0, [], 400, [500]⟩, true, []⟩)
        600).delivered = [500] := by
  refine ⟨rfl, ?_⟩
  norm_num [stopDetector, processBeatsTick, drainBeats]

/-- C7 (amended): on the very first call (no previous snapshot)
`calculateSpectralFlux` returns exactly `0` and seeds the previous-snapshot
buffer with ZEROS — not with the current snapshot; on every subsequent call
the previous snapshot is overwritten with the current one as the last step,
so the look-back of exactly 1 holds from the third call on (the second call
diffs against the zero seed, not against the first snapshot). -/
theorem c7_spectral_flux_cold_start :
    (∀ sr fft : ℕ, ∀ data : List ℕ,
        (calculateSpectralFlux sr fft none data).1 = 0 ∧
        (calculateSpectralFlux sr fft none data).2 =
          some (List.replicate data.length 0)) ∧
    (∀ sr fft : ℕ, ∀ p data : List ℕ, p.length = data.length →
        (calculateSpectralFlux sr fft (some p) data).2 = some data) := by
  refine ⟨fun sr fft data => ⟨rfl, rfl⟩, fun sr fft p data h => ?_⟩
  simp only [calculateSpectralFlux, typedArraySet]
  rw [List.drop_eq_nil_of_le (by rw [h]), List.append_nil]

/-- C7 witness: cold start on a concrete snapshot, and the overwrite of a
concrete equal-length previous snapshot. -/
theorem c7_spectral_flux_cold_start_witness :
    (calculateSpectralFlux 44100 1024 none [7, 9]).1 = 0 ∧
      (calculateSpectralFlux 44100 1024 (some [1, 2]) [3, 4]).2 = some [3, 4] := by
  obtain ⟨hcold, hover⟩ := c7_spectral_flux_cold_start
  exact ⟨(hcold 44100 1024 [7, 9]).1, hover 44100 1024 [1, 2] [3, 4] (by decide)⟩

/-- C7 counterexample: the first call does NOT store the current snapshot —
it seeds zeros — so the second call does not diff against the immediately
preceding snapshot: feeding the same full-scale snapshot twice yields flux
`1` on the second call, where a look-back of exactly 1 would yield `0`. -/
theorem c7_lookback_counterexample :
    (calculateSpectralFlux 44100 1024 none
        [255, 255, 255, 255, 255, 255, 255, 255]).2 ≠
      some [255, 255, 255, 255, 255, 255, 255, 255] ∧
    (calculateSpectralFlux 44100 1024
        (calculateSpectralFlux 44100 1024 none
          [255, 255, 255, 255, 255, 255, 255, 255]).2
        [255, 255, 255, 255, 255, 255, 255, 255]).1 = 1 := by
  have h0 : (calculateSpectralFlux 44100 1024 none
      [255, 255, 255, 255, 255, 255, 255, 255]).2 =
      some [0, 0, 0, 0, 0, 0, 0, 0] := by
    simp [calculateSpectralFlux, List.replicate]
  constructor
  · rw [h0]; decide
  · rw [h0]
    simp only [calculateSpectralFlux]
    rw [show fluxBinCount 44100 1024 [255, 255, 255, 255, 255, 255, 255, 255]
      = 5 from by decide]
    rw [show ((List.range 5).map (fluxContrib [0, 0, 0, 0, 0, 0, 0, 0]
      [255, 255, 255, 255, 255, 255, 255, 255])).sum = 1275 from by decide]
    norm_num [fluxDivisor, fluxBinCount, maxBinOf, binOf, effectiveRate,
      FLUX_MAX_HZ, show Int.toNat 5 = 5 from rfl]

theorem detectBeatsStep2_cases (sr fft : ℕ) (s : FluxState) (d : List ℕ)
    (now : ℚ) :
    ((detectBeatsStep2 sr fft s d now).beatBuffer = s.beatBuffer ∧
      (detectBeatsStep2 sr fft s d now).lastBeatTime = s.lastBeatTime) ∨
    ((detectBeatsStep2 sr fft s d now).beatBuffer =
        s.beatBuffer ++ [now + LOOKAHEAD_MS] ∧
      (detectBeatsStep2 sr fft s d now).lastBeatTime = now ∧
      MIN_BEAT_INTERVAL2 < now - s.lastBeatTime) := by
  simp only [detectBeatsStep2]
  split
  all_goals
    split
    · rename_i hfire
      exact Or.inr ⟨rfl, rfl, hfire.2⟩
    · exact Or.inl ⟨rfl, rfl⟩

theorem min_beat_interval_pos : (0 : ℚ) < MIN_BEAT_INTERVAL := by
  norm_num [MIN_BEAT_INTERVAL]

theorem min_beat_interval2_pos : (0 : ℚ) < MIN_BEAT_INTERVAL2 := by
  norm_num [MIN_BEAT_INTERVAL2]

theorem runDetectTimes_refractory (sr fft : ℕ) :
    ∀ (ticks : List (List ℕ × ℚ)) (s : KickState),
      (∀ t ∈ (runDetectTimes sr fft s ticks).2,
          MIN_BEAT_INTERVAL < t - s.lastBeatTime) ∧
      List.Chain' (fun a b => MIN_BEAT_INTERVAL ≤ b - a)
        (runDetectTimes sr fft s ticks).2 := by
  intro ticks
  induction ticks with
  | nil =>
    intro s
    exact ⟨by simp [runDetectTimes], by simp [runDetectTimes]⟩
  | cons t rest ih =>
    intro s
    obtain ⟨d, now⟩ := t
    simp only [runDetectTimes]
    rcases detectBeatsStep_cases sr fft s d now with ⟨hbuf, hlast⟩ |
        ⟨hbuf, hlast, hgap⟩
    · rw [if_neg (by rw [hbuf]; exact lt_irrefl _)]
      obtain ⟨ihmem, ihchain⟩ := ih (detectBeatsStep sr fft s d now)
      rw [hlast] at ihmem
      simpa using ⟨ihmem, ihchain⟩
    · rw [if_pos (by rw [hbuf]; simp)]
      obtain ⟨ihmem, ihchain⟩ := ih (detectBeatsStep sr fft s d now)
      rw [hlast] at ihmem
      have hmin := min_beat_interval_pos
      constructor
      · intro x hx
        simp only [List.singleton_append, List.mem_cons] at hx
        rcases hx with rfl | hx'
        · exact hgap
        · have := ihmem x hx'
          linarith
      · simp only [List.singleton_append]
        refine List.chain'_cons'.mpr ⟨fun b hb => ?_, ihchain⟩
        have := ihmem b (List.mem_of_mem_head? hb)
        linarith

theorem runDetectTimes2_refractory (sr fft : ℕ) :
    ∀ (ticks : List (List ℕ × ℚ)) (s : FluxState),
      (∀ t ∈ (runDetectTimes2 sr fft s ticks).2,
          MIN_BEAT_INTERVAL2 < t - s.lastBeatTime) ∧
      List.Chain' (fun a b => MIN_BEAT_INTERVAL2 ≤ b - a)
        (runDetectTimes2 sr fft s ticks).2 := by
  intro ticks
  induction ticks with
  | nil =>
    intro s
    exact ⟨by simp [runDetectTimes2], by simp [runDetectTimes2]⟩
  | cons t rest ih =>
    intro s
    obtain ⟨d, now⟩ := t
    simp only [runDetectTimes2]
    rcases detectBeatsStep2_cases sr fft s d now with ⟨hbuf, hlast⟩ |
        ⟨hbuf, hlast, hgap⟩
    · rw [if_neg (by rw [hbuf]; exact lt_irrefl _)]
      obtain ⟨ihmem, ihchain⟩ := ih (detectBeatsStep2 sr fft s d now)
      rw [hlast] at ihmem
      simpa using ⟨ihmem, ihchain⟩
    · rw [if_pos (by rw [hbuf]; simp)]
      obtain ⟨ihmem, ihchain⟩ := ih (detectBeatsStep2 sr fft s d now)
      rw [hlast] at ihmem
      have hmin := min_beat_interval2_pos
      constructor
      · intro x hx
        simp only [List.singleton_append, List.mem_cons] at hx
        rcases hx with rfl | hx'
        · exact hgap
        · have := ihmem x hx'
          linarith
      · simp only [List.singleton_append]
        refine List.chain'_cons'.mpr ⟨fun b hb => ?_, ihchain⟩
        have := ihmem b (List.mem_of_mem_head? hb)
        linarith

/-- C4: refractory law, in both detector variants — along any run, the
detection times of consecutively enqueued beats differ by at least the
configured minimum beat interval (the code in fact guarantees a strict
excess), and a tick arriving less than the refractory interval after the
last detected beat enqueues nothing, however large its impulse. -/
theorem c4_refractory_law :
    (∀ sr fft : ℕ, ∀ s : KickState, ∀ ticks : List (List ℕ × ℚ),
        List.Chain' (fun a b => MIN_BEAT_INTERVAL ≤ b - a)
          (runDetectTimes sr fft s ticks).2) ∧
    (∀ sr fft : ℕ, ∀ s : FluxState, ∀ ticks : List (List ℕ × ℚ),
        List.Chain' (fun a b => MIN_BEAT_INTERVAL2 ≤ b - a)
          (runDetectTimes2 sr fft s ticks).2) ∧
    (∀ sr fft : ℕ, ∀ s : KickState, ∀ d : List ℕ, ∀ now : ℚ,
        now - s.lastBeatTime < MIN_BEAT_INTERVAL →
        (detectBeatsStep sr fft s d now).beatBuffer = s.beatBuffer) ∧
    (∀ sr fft : ℕ, ∀ s : FluxState, ∀ d : List ℕ, ∀ now : ℚ,
        now - s.lastBeatTime < MIN_BEAT_INTERVAL2 →
        (detectBeatsStep2 sr fft s d now).beatBuffer = s.beatBuffer) := by
  refine ⟨fun sr fft s ticks => (runDetectTimes_refractory sr fft ticks s).2,
    fun sr fft s ticks => (runDetectTimes2_refractory sr fft ticks s).2,
    fun sr fft s d now h => ?_, fun sr fft s d now h => ?_⟩
  · rcases detectBeatsStep_cases sr fft s d now with ⟨hbuf, _⟩ | ⟨_, _, hgap⟩
    · exact hbuf
    · exact absurd hgap (by linarith)
  · rcases detectBeatsStep2_cases sr fft s d now with ⟨hbuf, _⟩ | ⟨_, _, hgap⟩
    · exact hbuf
    · exact absurd hgap (by linarith)

/-- C4 witness: the refractory theorem applied at concrete inputs — in both
variants, a tick 50 ms after a beat at time 1000 (refractory 250 ms resp.
150 ms) leaves the beat buffer unchanged. -/
theorem c4_refractory_law_witness :
    (detectBeatsStep 44100 2048 ⟨0, 0, [], 1000, [1100]⟩ [255, 255] 1050).beatBuffer
        = [1100] ∧
    (detectBeatsStep2 44100 1024 ⟨[0], 1000, some [0, 0], [1100]⟩ [255, 255]
        1050).beatBuffer = [1100] := by
  obtain ⟨_, _, h3, h4⟩ := c4_refractory_law
  exact ⟨h3 44100 2048 ⟨0, 0, [], 1000, [1100]⟩ [255, 255] 1050
      (by norm_num [MIN_BEAT_INTERVAL]),
    h4 44100 1024 ⟨[0], 1000, some [0, 0], [1100]⟩ [255, 255] 1050
      (by norm_num [MIN_BEAT_INTERVAL2])⟩

theorem drainBeats_fired_le (buf : List ℚ) (now : ℚ) :
    ∀ t ∈ (drainBeats buf now).2, t ≤ now := by
  induction buf with
  | nil => simp [drainBeats]
  | cons x rest ih =>
    simp only [drainBeats]
    split
    · rename_i hx
      intro t ht
      rcases List.mem_cons.mp ht with rfl | h
      · exact hx
      · exact ih t h
    · simp

theorem drainBeats_decomp (buf : List ℚ) (now : ℚ) :
    (drainBeats buf now).2 ++ (drainBeats buf now).1 = buf := by
  induction buf with
  | nil => rfl
  | cons x rest ih =>
    simp only [drainBeats]
    split
    · simpa using ih
    · rfl

theorem sorted_append_singleton {l : List ℚ} {a : ℚ} (hs : l.Sorted (· ≤ ·))
    (ha : ∀ x ∈ l, x ≤ a) : (l ++ [a]).Sorted (· ≤ ·) := by
  rw [List.Sorted, List.pairwise_append]
  exact ⟨hs, List.pairwise_singleton _ _, by simpa using ha⟩

theorem bufBound_detect {sr fft : ℕ} {s : KickState} {d : List ℕ}
    {t now : ℚ} (hb : BufBound s.beatBuffer t) (hle : t ≤ now) :
    BufBound (detectBeatsStep sr fft s d now).beatBuffer now := by
  obtain ⟨hsort, hbound⟩ := hb
  rcases detectBeatsStep_cases sr fft s d now with ⟨heq, _⟩ | ⟨heq, _, _⟩
  · rw [heq]
    exact ⟨hsort, fun x hx => (hbound x hx).trans (by linarith)⟩
  · rw [heq]
    refine ⟨sorted_append_singleton hsort
      (fun x hx => (hbound x hx).trans (by linarith)), fun x hx => ?_⟩
    rcases List.mem_append.mp hx with h | h
    · exact (hbound x h).trans (by linarith)
    · simp only [List.mem_singleton] at h
      exact h.le

theorem bufBound_drain {buf : List ℚ} {t now : ℚ} (hb : BufBound buf t)
    (hle : t ≤ now) : BufBound (drainBeats buf now).1 now := by
  obtain ⟨hsort, hbound⟩ := hb
  have hsub : List.Sublist (drainBeats buf now).1 buf := by
    conv_rhs => rw [← drainBeats_decomp buf now]
    exact List.sublist_append_right _ _
  exact ⟨hsort.sublist hsub,
    fun x hx => (hbound x (hsub.subset hx)).trans (by linarith)⟩

theorem detect_pushed (sr fft : ℕ) (s : KickState) (d : List ℕ) (now : ℚ) :
    (detectBeatsStep sr fft s d now).beatBuffer =
      s.beatBuffer ++ (detectBeatsStep sr fft s d now).beatBuffer.drop
        s.beatBuffer.length := by
  rcases detectBeatsStep_cases sr fft s d now with ⟨heq, _⟩ | ⟨heq, _, _⟩
  · rw [heq, List.drop_length, List.append_nil]
  · rw [heq, List.drop_left]

theorem runOps_fifo (sr fft : ℕ) :
    ∀ (ops : List TickOp) (s : LoopState) (t : ℚ),
      List.Chain (· ≤ ·) t (ops.map opNow) →
      BufBound s.det.beatBuffer t →
      ((runOps sr fft s ops).1.delivered ++
          (runOps sr fft s ops).1.det.beatBuffer =
        s.delivered ++ s.det.beatBuffer ++ (runOps sr fft s ops).2) ∧
      BufBound (runOps sr fft s ops).1.det.beatBuffer (lastNow t ops) := by
  intro ops
  induction ops with
  | nil =>
    intro s t _ hb
    exact ⟨by simp [runOps], hb⟩
  | cons op rest ih =>
    intro s t hchain hb
    rw [List.map_cons, List.chain_cons] at hchain
    obtain ⟨hle, hchain'⟩ := hchain
    cases op with
    | detect d now =>
      simp only [opNow] at hle hchain'
      simp only [runOps, applyOp, lastNow, List.foldl_cons, opNow]
      obtain ⟨ihdel, ihbound⟩ := ih
        ({ det := detectBeatsStep sr fft s.det d now,
           delivered := s.delivered } : LoopState) now hchain'
        (bufBound_detect hb hle)
      refine ⟨?_, ihbound⟩
      rw [ihdel]
      conv_lhs => rw [detect_pushed sr fft s.det d now]
      simp [List.append_assoc]
    | drain now =>
      simp only [opNow] at hle hchain'
      simp only [runOps, applyOp, lastNow, List.foldl_cons, opNow]
      obtain ⟨ihdel, ihbound⟩ := ih
        ({ det := { s.det with beatBuffer := (drainBeats s.det.beatBuffer now).1 },
           delivered := s.delivered ++ (drainBeats s.det.beatBuffer now).2 } :
          LoopState) now hchain' (bufBound_drain hb hle)
      refine ⟨?_, ihbound⟩
      rw [ihdel]
      have hd := drainBeats_decomp s.det.beatBuffer now
      set fr := (drainBeats s.det.beatBuffer now).2 with hfr
      set rm := (drainBeats s.det.beatBuffer now).1 with hrm
      rw [← hd]
      simp [List.append_assoc]

/-- C5: lookahead law for the kick detector — every beat decision at clock
value `now` enqueues exactly the timestamp `now + LOOKAHEAD_MS` at the tail
of the beat buffer (or enqueues nothing), the drain step pops an event only
at a clock value that has reached its timestamp, and a detect step delivers
nothing to the callback (no synchronous emission). -/
theorem c5_lookahead_law :
    (∀ sr fft : ℕ, ∀ s : KickState, ∀ d : List ℕ, ∀ now : ℚ,
        (detectBeatsStep sr fft s d now).beatBuffer = s.beatBuffer ∨
        (detectBeatsStep sr fft s d now).beatBuffer =
          s.beatBuffer ++ [now + LOOKAHEAD_MS]) ∧
    (∀ buf : List ℚ, ∀ now t : ℚ, t ∈ (drainBeats buf now).2 → t ≤ now) ∧
    (∀ sr fft : ℕ, ∀ s : LoopState, ∀ d : List ℕ, ∀ now : ℚ,
        (applyOp sr fft s (TickOp.detect d now)).1.delivered = s.delivered) := by
  refine ⟨fun sr fft s d now => ?_, fun buf now t ht =>
    drainBeats_fired_le buf now t ht, fun sr fft s d now => rfl⟩
  rcases detectBeatsStep_cases sr fft s d now with ⟨heq, _⟩ | ⟨heq, _, _⟩
  · exact Or.inl heq
  · exact Or.inr heq

/-- C5 witness: a queued event with timestamp 100 is popped by a drain at
clock 150, and the lookahead theorem bounds it by the clock. -/
theorem c5_lookahead_law_witness :
    ((detectBeatsStep 44100 2048 initialKickState [] 7).beatBuffer =
        initialKickState.beatBuffer ∨
      (detectBeatsStep 44100 2048 initialKickState [] 7).beatBuffer =
        initialKickState.beatBuffer ++ [7 + LOOKAHEAD_MS]) ∧
    (100 : ℚ) ≤ 150 := by
  obtain ⟨h1, h2, _⟩ := c5_lookahead_law
  refine ⟨h1 44100 2048 initialKickState [] 7, h2 [100] 150 100 ?_⟩
  norm_num [drainBeats]

/-- C6: FIFO ordering — running any monotone-clock sequence of detect and
drain steps from a fresh session, the events delivered to the callback
followed by the events still queued are exactly the enqueued timestamps in
enqueue order (so delivery order is the enqueue order), and the beat buffer
is sorted in non-decreasing timestamp order (taking prefixes of `ops`, it is
sorted at every intermediate point). -/
theorem c6_fifo_ordering (sr fft : ℕ) (ops : List TickOp) (t : ℚ)
    (hmono : List.Chain (· ≤ ·) t (ops.map opNow)) :
    ((runOps sr fft ⟨initialKickState, []⟩ ops).1.delivered ++
        (runOps sr fft ⟨initialKickState, []⟩ ops).1.det.beatBuffer =
      (runOps sr fft ⟨initialKickState, []⟩ ops).2) ∧
    (runOps sr fft ⟨initialKickState, []⟩ ops).1.det.beatBuffer.Sorted
      (· ≤ ·) := by
  have h := runOps_fifo sr fft ops ⟨initialKickState, []⟩ t hmono
    ⟨by simp [initialKickState], by simp [initialKickState]⟩
  exact ⟨by simpa [initialKickState] using h.1, h.2.1⟩

/-- C6 witness: the FIFO theorem applied to a concrete monotone run (a
detect tick at clock 1000 followed by a drain at clock 1200). -/
theorem c6_fifo_ordering_witness :
    ((runOps 44100 2048 ⟨initialKickState, []⟩
        [TickOp.detect [255, 255] 1000, TickOp.drain 1200]).1.delivered ++
      (runOps 44100 2048 ⟨initialKickState, []⟩
        [TickOp.detect [255, 255] 1000, TickOp.drain 1200]).1.det.beatBuffer =
      (runOps 44100 2048 ⟨initialKickState, []⟩
        [TickOp.detect [255, 255] 1000, TickOp.drain 1200]).2) ∧
    (runOps 44100 2048 ⟨initialKickState, []⟩
      [TickOp.detect [255, 255] 1000, TickOp.drain 1200]).1.det.beatBuffer.Sorted
        (· ≤ ·) :=
  c6_fifo_ordering 44100 2048 [TickOp.detect [255, 255] 1000, TickOp.drain 1200]
    0 (by
      simp only [List.map_cons, List.map_nil, opNow]
      exact .cons (by norm_num) (.cons (by norm_num) .nil))

end ImmerSync
